import Mathlib

/-!
Shallow embedding of `src/fetch.c` (libgit2 fetch negotiation engine):
`filter_wants`, `git_fetch_negotiate` and the `whn_cmp` comparator.

External collaborators (transport, ref store, refspec matcher, revision
walker) are modelled as environments of pure functions bundled in the
`Remote` / `Repository` / `Transport` / `Refspec` structures; each C call
into a collaborator reads the environment's answer.  Observable actions
(transport I/O, walker calls, walker release) are recorded in an event
trace so that ordering and cleanup properties can be stated.
-/

/-- `GIT_SUCCESS` from git2/errors.h. -/
def GIT_SUCCESS : Int := 0

/-- `GIT_ERROR` from git2/errors.h. -/
def GIT_ERROR : Int := -1

/-- `GIT_ENOTFOUND` from git2/errors.h. -/
def GIT_ENOTFOUND : Int := -3

/-- `GIT_ENOMEM` from git2/errors.h. -/
def GIT_ENOMEM : Int := -4

/-- `GIT_EREVWALKOVER` from git2/errors.h: the revision walker's
termination sentinel. -/
def GIT_EREVWALKOVER : Int := -20

/-- `GIT_ENOMATCH` from git2/errors.h: refspec source-pattern mismatch. -/
def GIT_ENOMATCH : Int := -31

/-- `GIT_WHN_WANT`, the classification tag written into `head->type` by
`filter_wants` (the only tag the current code produces). -/
def GIT_WHN_WANT : Int := 1

/-- An object identifier (`git_oid`), abstracted to a number. -/
structure Oid where
  id : Nat
deriving DecidableEq, Repr

/-- A resolved local reference (`git_reference`): only its target oid is
consumed by this file (`git_reference_oid`). -/
structure Reference where
  oid : Oid
deriving DecidableEq, Repr

/-- One entry of a remote advertisement (`git_remote_head`): `name`,
`oid` (remote tip), `loid` (local counterpart's oid, filled by
`filter_wants`), `islocal` (the C `local` flag) and the classification
`type` used by `whn_cmp`. -/
structure RemoteHead where
  name : String
  oid : Oid
  loid : Oid
  islocal : Bool
  type : Int
deriving DecidableEq, Repr

/-- The active fetch refspec, exposed through the two operations
`fetch.c` uses: `git_refspec_src_match` (an error code; `GIT_ENOMATCH`
means no match) and `git_refspec_transform` (return code — negative on
failure such as buffer overflow — plus the transformed local tracking
name written into the buffer). -/
structure Refspec where
  srcMatch : String → Int
  transform : String → Int × String

/-- The repository-side collaborators: `git_reference_lookup` (return
code plus the value written through the out pointer, `none` = NULL),
`git_reference_listall` (return code plus the string array), and the
revision walker: the code `git_revwalk_new` returns, the per-oid code of
`git_revwalk_push`, and `revwalkRun`, giving for a seed list the oids
`git_revwalk_next` yields followed by its terminating code. -/
structure Repository where
  lookup : String → Int × Option Reference
  listall : Int × List String
  revwalkNewCode : Int
  revwalkPush : Oid → Int
  revwalkRun : List Oid → List Oid × Int

/-- The transport: `git_transport_ls` (return code plus the head array
it fills), and the codes the send operations report (`fetch.c` discards
these return values). -/
structure Transport where
  ls : Int × List RemoteHead
  sendWantsCode : Int
  sendHaveCode : Oid → Int
  sendFlushCode : Int
  sendDoneCode : Int

/-- The `git_remote`: transport, repository, configured fetch refspec
(`git_remote_fetchspec`, `none` = not configured) and the `refs` head
array that `filter_wants` replaces. -/
structure Remote where
  transport : Transport
  repo : Repository
  fetchspec : Option Refspec
  refs : List RemoteHead

/-- Observable actions of the negotiation engine, in call order. -/
inductive Event where
  | transportLs : Event
  | matchHead : String → Event
  | sendWants : List RemoteHead → Event
  | sendHave : Oid → Event
  | sendFlush : Event
  | sendDone : Event
  | revwalkNew : Event
  | revwalkPush : Oid → Event
  | revwalkFree : Event
deriving DecidableEq, Repr

/-- `whn_cmp` from fetch.c: sorts heads by `type` descending
(`headb->type - heada->type`). -/
def whn_cmp (a b : RemoteHead) : Int := b.type - a.type

/-- Modelled from the spec: insertion step of `git_vector_sort`
(vector.c is not part of this source snapshot).  Per section 4.1 the
sort is a stable sort by classification, descending: an element is
placed before the first element that does not strictly precede it under
`whn_cmp`, so earlier elements stay first on ties. -/
def vector_insert_sorted (a : RemoteHead) : List RemoteHead → List RemoteHead
  | [] => [a]
  | b :: l => if whn_cmp a b ≤ 0 then a :: b :: l else b :: vector_insert_sorted a l

/-- Modelled from the spec: `git_vector_sort` (vector.c is not part of
this source snapshot), a stable sort under the vector's comparator
`whn_cmp`: classification descending, ties in original order. -/
def git_vector_sort : List RemoteHead → List RemoteHead
  | [] => []
  | a :: l => vector_insert_sorted a (git_vector_sort l)

/-- The body of the per-head loop of `filter_wants` (fetch.c lines
74-119): match the name against the refspec (`GIT_ENOMATCH` skips the
head, other negative codes abort), transform it, look the transformed
name up (`GIT_ENOTFOUND` is not fatal), skip when the local oid equals
the remote oid, otherwise record the local oid and tag the head
`GIT_WHN_WANT`.  `Except.ok none` = head skipped, `Except.ok (some h)` =
head wanted as `h`, `Except.error e` = whole computation aborts. -/
def process_head (repo : Repository) (sp : Refspec) (head : RemoteHead) :
    Except Int (Option RemoteHead) :=
  let m := sp.srcMatch head.name
  if m = GIT_ENOMATCH then Except.ok none
  else if m < GIT_SUCCESS then Except.error m
  else
    let t := sp.transform head.name
    if t.1 < GIT_SUCCESS then Except.error t.1
    else
      let lk := repo.lookup t.2
      if lk.1 < GIT_SUCCESS ∧ lk.1 ≠ GIT_ENOTFOUND then Except.error lk.1
      else
        match lk.2 with
        | some ref =>
          if head.oid = ref.oid then Except.ok none
          else Except.ok (some { head with islocal := true, loid := ref.oid,
                                           type := GIT_WHN_WANT })
        | none => Except.ok (some { head with type := GIT_WHN_WANT })

/-- The per-head loop of `filter_wants`, accumulating the want list and
the trace (one `matchHead` event per head examined); an abort keeps the
events of the heads already examined and drops the rest of the loop. -/
def filter_loop (repo : Repository) (sp : Refspec) :
    List RemoteHead → Except Int (List RemoteHead) × List Event
  | [] => (Except.ok [], [])
  | h :: rest =>
    match process_head repo sp h with
    | Except.error e => (Except.error e, [Event.matchHead h.name])
    | Except.ok none =>
      let r := filter_loop repo sp rest
      (r.1, Event.matchHead h.name :: r.2)
    | Except.ok (some h2) =>
      let r := filter_loop repo sp rest
      (r.1.map (fun l => h2 :: l), Event.matchHead h.name :: r.2)

/-- `filter_wants` (fetch.c lines 48-130): list the remote's
advertisement over the transport, require a configured fetchspec
(`git__throw(GIT_ERROR, ...)` otherwise), run the per-head loop, sort
the accumulated list and install it as `remote->refs`.  Every error
path frees only the local vector and leaves the remote unchanged.
Returns (error code, resulting remote, event trace). -/
def filter_wants (remote : Remote) : Int × Remote × List Event :=
  let ls := remote.transport.ls
  if ls.1 < GIT_SUCCESS then (ls.1, remote, [Event.transportLs])
  else
    match remote.fetchspec with
    | none => (GIT_ERROR, remote, [Event.transportLs])
    | some sp =>
      match filter_loop remote.repo sp ls.2 with
      | (Except.error e, evs) => (e, remote, Event.transportLs :: evs)
      | (Except.ok want, evs) =>
        (GIT_SUCCESS, { remote with refs := git_vector_sort want },
          Event.transportLs :: evs)

/-- `git_reference_oid` applied to the C `ref` variable of
`git_fetch_negotiate`: when the lookup left the pointer unset (`none`,
an indeterminate pointer in C, undefined behaviour when dereferenced)
the model yields a fixed arbitrary oid. -/
def reference_oid : Option Reference → Oid
  | some r => r.oid
  | none => { id := 0 }

/-- The walker-seeding loop of `git_fetch_negotiate` (fetch.c lines
172-184): for each listed name, look the ref up and push its oid.  The
C code aborts only when a code is strictly below `GIT_ERROR` (the
comparisons read `error < GIT_ERROR`), so a plain `GIT_ERROR` failure
falls through.  Returns the pushed seeds (or the aborting code) and the
`revwalkPush` events of the calls made. -/
def seed_loop (repo : Repository) : List String → Except Int (List Oid) × List Event
  | [] => (Except.ok [], [])
  | n :: rest =>
    let lk := repo.lookup n
    if lk.1 < GIT_ERROR then (Except.error lk.1, [])
    else
      let o := reference_oid lk.2
      let pc := repo.revwalkPush o
      if pc < GIT_ERROR then (Except.error pc, [Event.revwalkPush o])
      else
        let r := seed_loop repo rest
        (r.1.map (fun l => o :: l), Event.revwalkPush o :: r.2)

/-- `git_fetch_negotiate` (fetch.c lines 137-200): filter the wants
(propagating failure), return success at once when the want list is
empty, send the wants (result discarded), list all local refs (abort
only below `GIT_ERROR`), create the walker (event `revwalkNew`; abort
below `GIT_ERROR` goes to cleanup, which frees the walker), seed it,
drain it sending one have per yielded oid until the walker stops,
translate `GIT_EREVWALKOVER` into success, send flush and done (results
discarded), free the walker (`revwalkFree`) and return. -/
def git_fetch_negotiate (remote : Remote) : Int × Remote × List Event :=
  let fw := filter_wants remote
  if fw.1 < GIT_SUCCESS then fw
  else if fw.2.1.refs.length = 0 then (GIT_SUCCESS, fw.2.1, fw.2.2)
  else
    let r1 := fw.2.1
    let tr2 := fw.2.2 ++ [Event.sendWants r1.refs]
    let ls := r1.repo.listall
    if ls.1 < GIT_ERROR then (ls.1, r1, tr2)
    else
      let tr3 := tr2 ++ [Event.revwalkNew]
      if r1.repo.revwalkNewCode < GIT_ERROR then
        (r1.repo.revwalkNewCode, r1, tr3 ++ [Event.revwalkFree])
      else
        match seed_loop r1.repo ls.2 with
        | (Except.error e, evs) => (e, r1, tr3 ++ evs ++ [Event.revwalkFree])
        | (Except.ok seeds, evs) =>
          let run := r1.repo.revwalkRun seeds
          let e1 := if run.2 = GIT_EREVWALKOVER then GIT_SUCCESS else run.2
          (e1, r1, tr3 ++ evs ++ run.1.map Event.sendHave ++
            [Event.sendFlush, Event.sendDone, Event.revwalkFree])

/-- The oid carried by a `sendHave` event, if any. -/
def haveOid : Event → Option Oid
  | Event.sendHave o => some o
  | _ => none

/-- The oids of the `sendHave` events of a trace, in order. -/
def havesOf (tr : List Event) : List Oid :=
  tr.filterMap haveOid

/-- True exactly on `sendWants` events. -/
def Event.isSendWants : Event → Bool
  | Event.sendWants _ => true
  | _ => false

/-- True exactly on `sendHave` events. -/
def Event.isSendHave : Event → Bool
  | Event.sendHave _ => true
  | _ => false

/-- True on the four transport send operations. -/
def Event.isTransportSend : Event → Bool
  | Event.sendWants _ => true
  | Event.sendHave _ => true
  | Event.sendFlush => true
  | Event.sendDone => true
  | _ => false

/-- "A local ref exists under the transformed name whose target oid
equals the head's remote oid": the up-to-date condition of claim C1. -/
def localUpToDate (repo : Repository) (sp : Refspec) (head : RemoteHead) : Prop :=
  ∃ r, (repo.lookup (sp.transform head.name).2).2 = some r ∧ r.oid = head.oid

/- Concrete environments for witnesses and counterexamples. -/

/-- A sample local oid. -/
def oidA : Oid := { id := 5 }

/-- A sample remote oid, distinct from `oidA`. -/
def oidB : Oid := { id := 7 }

/-- A refspec whose source pattern matches every name and whose
transform is the identity. -/
def refspecId : Refspec :=
  { srcMatch := fun _ => GIT_SUCCESS
    transform := fun n => (GIT_SUCCESS, n) }

/-- An advertised head `m` at `oidB` with no local counterpart yet. -/
def headM : RemoteHead :=
  { name := "m", oid := oidB, loid := { id := 0 }, islocal := false, type := 0 }

/-- A transport advertising `[headM]` whose send operations all
succeed. -/
def transportOk : Transport :=
  { ls := (GIT_SUCCESS, [headM])
    sendWantsCode := GIT_SUCCESS
    sendHaveCode := fun _ => GIT_SUCCESS
    sendFlushCode := GIT_SUCCESS
    sendDoneCode := GIT_SUCCESS }

/-- A repository with one local ref `b` at `oidA`; lookups of other
names report `GIT_ENOTFOUND`; the walker yields exactly its seeds and
then the `GIT_EREVWALKOVER` sentinel. -/
def repoOk : Repository :=
  { lookup := fun n =>
      if n = "b" then (GIT_SUCCESS, some { oid := oidA }) else (GIT_ENOTFOUND, none)
    listall := (GIT_SUCCESS, ["b"])
    revwalkNewCode := GIT_SUCCESS
    revwalkPush := fun _ => GIT_SUCCESS
    revwalkRun := fun s => (s, GIT_EREVWALKOVER) }

/-- A healthy remote: everything succeeds, the advertised head is new. -/
def remoteOk : Remote :=
  { transport := transportOk, repo := repoOk, fetchspec := some refspecId, refs := [] }

/- Helper lemmas. -/

/-- `filter_wants` only rewrites the `refs` field: the repository is
untouched. -/
theorem filter_wants_repo (r : Remote) : (filter_wants r).2.1.repo = r.repo := by
  simp only [filter_wants]
  split
  · rfl
  · split
    · rfl
    · split
      · rfl
      · rfl

/-- Every event in a `filter_loop` trace is a `matchHead` event. -/
theorem filter_loop_trace (repo : Repository) (sp : Refspec) (l : List RemoteHead) :
    ∀ e ∈ (filter_loop repo sp l).2, ∃ n, e = Event.matchHead n := by
  induction l with
  | nil => intro e he; simp [filter_loop] at he
  | cons a l ih =>
    intro e he
    simp only [filter_loop] at he
    rcases hp : process_head repo sp a with e' | o
    · rw [hp] at he
      simp at he
      exact ⟨a.name, he⟩
    · rw [hp] at he
      cases o with
      | none =>
        simp at he
        rcases he with he | he
        · exact ⟨a.name, he⟩
        · exact ih e he
      | some h2 =>
        simp at he
        rcases he with he | he
        · exact ⟨a.name, he⟩
        · exact ih e he

/-- Every event in a `filter_wants` trace is the `transportLs` event or
a `matchHead` event: `filter_wants` performs no transport send and no
walker call. -/
theorem filter_wants_trace (r : Remote) :
    ∀ e ∈ (filter_wants r).2.2,
      e = Event.transportLs ∨ ∃ n, e = Event.matchHead n := by
  intro e he
  simp only [filter_wants] at he
  split at he
  · simp at he; exact Or.inl he
  · split at he
    · simp at he; exact Or.inl he
    · split at he
      all_goals
        rename_i heq
        simp at he
        rcases he with he | he
        · exact Or.inl he
        · right
          have h3 := filter_loop_trace r.repo ‹Refspec› r.transport.ls.2
          rw [heq] at h3
          exact h3 e he

/-- Every event in a `seed_loop` trace is a `revwalkPush` event. -/
theorem seed_loop_trace (repo : Repository) (names : List String) :
    ∀ e ∈ (seed_loop repo names).2, ∃ o, e = Event.revwalkPush o := by
  induction names with
  | nil => intro e he; simp [seed_loop] at he
  | cons n rest ih =>
    intro e he
    simp only [seed_loop] at he
    split at he
    · simp at he
    · split at he
      · simp at he
        exact ⟨_, he⟩
      · simp at he
        rcases he with he | he
        · exact ⟨_, he⟩
        · exact ih e he

/-- The per-head decision of `filter_wants` as an optional want entry:
`some h2` when the head is wanted (appended as `h2`), `none` when it is
skipped or when the computation aborts at this head. -/
def want_of_head (repo : Repository) (sp : Refspec) (h : RemoteHead) : Option RemoteHead :=
  match process_head repo sp h with
  | Except.ok o => o
  | Except.error _ => none

/-- A successful `filter_loop` run returns exactly the advertised heads
the per-head decision selects, in advertisement order, and every head
was processed without abort. -/
theorem filter_loop_ok (repo : Repository) (sp : Refspec) (l : List RemoteHead)
    (want : List RemoteHead) (evs : List Event)
    (h : filter_loop repo sp l = (Except.ok want, evs)) :
    want = l.filterMap (want_of_head repo sp) ∧
      ∀ x ∈ l, ∃ o, process_head repo sp x = Except.ok o := by
  induction l generalizing want evs with
  | nil =>
    simp only [filter_loop, Prod.mk.injEq] at h
    obtain ⟨h1, _⟩ := h
    cases h1
    simp
  | cons a l ih =>
    simp only [filter_loop] at h
    rcases hp : process_head repo sp a with e | o
    · rw [hp] at h
      simp at h
    · rw [hp] at h
      cases o with
      | none =>
        simp only [Prod.mk.injEq] at h
        obtain ⟨h1, _⟩ := h
        rcases hfl : filter_loop repo sp l with ⟨res, evts⟩
        rw [hfl] at h1
        cases h1
        obtain ⟨ih1, ih2⟩ := ih _ _ hfl
        refine ⟨?_, ?_⟩
        · simp [List.filterMap_cons, want_of_head, hp, ih1]
        · intro x hx
          rcases List.mem_cons.mp hx with hx | hx
          · subst hx; exact ⟨none, hp⟩
          · exact ih2 x hx
      | some h2 =>
        simp only [Prod.mk.injEq] at h
        obtain ⟨h1, _⟩ := h
        rcases hfl : filter_loop repo sp l with ⟨res, evts⟩
        rw [hfl] at h1
        cases res with
        | error e => simp [Except.map] at h1
        | ok w =>
          simp only [Except.map, Except.ok.injEq] at h1
          cases h1
          obtain ⟨ih1, ih2⟩ := ih _ _ hfl
          refine ⟨?_, ?_⟩
          · simp [List.filterMap_cons, want_of_head, hp, ih1]
          · intro x hx
            rcases List.mem_cons.mp hx with hx | hx
            · subst hx; exact ⟨some h2, hp⟩
            · exact ih2 x hx

/-- `process_head` only aborts with a strictly negative code. -/
theorem process_head_error_neg (repo : Repository) (sp : Refspec) (h : RemoteHead)
    (e : Int) (hp : process_head repo sp h = Except.error e) : e < GIT_SUCCESS := by
  simp only [process_head] at hp
  split at hp
  · exact absurd hp (by simp)
  · split at hp
    · rename_i hlt
      rw [Except.error.injEq] at hp
      subst hp
      exact hlt
    · split at hp
      · rename_i hlt
        rw [Except.error.injEq] at hp
        subst hp
        exact hlt
      · split at hp
        · rename_i hlt
          rw [Except.error.injEq] at hp
          subst hp
          exact hlt.1
        · split at hp
          · split at hp
            · exact absurd hp (by simp)
            · exact absurd hp (by simp)
          · exact absurd hp (by simp)

/-- A wanted head keeps its advertised name and remote oid and is
tagged `GIT_WHN_WANT`. -/
theorem process_head_some_fields (repo : Repository) (sp : Refspec) (h h2 : RemoteHead)
    (hp : process_head repo sp h = Except.ok (some h2)) :
    h2.name = h.name ∧ h2.oid = h.oid ∧ h2.type = GIT_WHN_WANT := by
  simp only [process_head] at hp
  split at hp
  · exact absurd hp (by simp)
  · split at hp
    · exact absurd hp (by simp)
    · split at hp
      · exact absurd hp (by simp)
      · split at hp
        · exact absurd hp (by simp)
        · split at hp
          · split at hp
            · exact absurd hp (by simp)
            · rw [Except.ok.injEq, Option.some.injEq] at hp
              subst hp
              exact ⟨rfl, rfl, rfl⟩
          · rw [Except.ok.injEq, Option.some.injEq] at hp
            subst hp
            exact ⟨rfl, rfl, rfl⟩

/-- When `process_head` does not abort, it selects the head iff the
name matches the refspec source pattern and no local ref under the
transformed name is already at the head's remote oid. -/
theorem process_head_cond (repo : Repository) (sp : Refspec) (head : RemoteHead)
    (o : Option RemoteHead) (hp : process_head repo sp head = Except.ok o) :
    o.isSome = true ↔
      (GIT_SUCCESS ≤ sp.srcMatch head.name ∧ ¬ localUpToDate repo sp head) := by
  simp only [process_head] at hp
  split at hp
  · rename_i hm
    rw [Except.ok.injEq] at hp
    subst hp
    simp only [Option.isSome_none, Bool.false_eq_true, false_iff]
    intro ⟨h1, _⟩
    rw [hm] at h1
    exact absurd h1 (by decide)
  · split at hp
    · exact absurd hp (by simp)
    · rename_i hm hlt
      split at hp
      · exact absurd hp (by simp)
      · split at hp
        · exact absurd hp (by simp)
        · split at hp
          · rename_i ref heq
            split at hp
            · rename_i hoid
              rw [Except.ok.injEq] at hp
              subst hp
              simp only [Option.isSome_none, Bool.false_eq_true, false_iff]
              intro ⟨_, hnot⟩
              exact hnot ⟨ref, heq, hoid.symm⟩
            · rename_i hoid
              rw [Except.ok.injEq] at hp
              subst hp
              simp only [Option.isSome_some, true_iff]
              refine ⟨Int.not_lt.mp hlt, ?_⟩
              intro ⟨r, hr1, hr2⟩
              rw [heq, Option.some.injEq] at hr1
              subst hr1
              exact hoid (hr2.symm)
          · rename_i heq
            rw [Except.ok.injEq] at hp
            subst hp
            simp only [Option.isSome_some, true_iff]
            refine ⟨Int.not_lt.mp hlt, ?_⟩
            intro ⟨r, hr1, _⟩
            rw [heq] at hr1
            exact absurd hr1 (by simp)

/-- `want_of_head` returns exactly the non-aborting `process_head`
decision. -/
theorem want_of_head_eq (repo : Repository) (sp : Refspec) (h : RemoteHead)
    (o : Option RemoteHead) (hp : process_head repo sp h = Except.ok o) :
    want_of_head repo sp h = o := by
  simp only [want_of_head, hp]

/-- A selected `want_of_head` answer comes from a non-aborting
`process_head` run. -/
theorem want_of_head_some (repo : Repository) (sp : Refspec) (h x : RemoteHead)
    (hw : want_of_head repo sp h = some x) :
    process_head repo sp h = Except.ok (some x) := by
  simp only [want_of_head] at hw
  split at hw
  · rename_i o heq
    rw [hw] at heq
    exact heq
  · exact absurd hw (by simp)

/-- The up-to-date condition depends only on the head's name and remote
oid. -/
theorem localUpToDate_congr (repo : Repository) (sp : Refspec) (a b : RemoteHead)
    (hn : a.name = b.name) (ho : a.oid = b.oid) :
    localUpToDate repo sp a ↔ localUpToDate repo sp b := by
  simp only [localUpToDate, hn, ho]

/-- Inserting a head among heads of the same classification keeps it
first: the modelled stable sort does not move equal keys. -/
theorem vector_insert_sorted_id (a : RemoteHead) (l : List RemoteHead)
    (ha : a.type = GIT_WHN_WANT) (hl : ∀ x ∈ l, x.type = GIT_WHN_WANT) :
    vector_insert_sorted a l = a :: l := by
  cases l with
  | nil => rfl
  | cons b l =>
    have hc : whn_cmp a b ≤ 0 := by
      simp only [whn_cmp, ha, hl b (List.mem_cons_self b l)]
      simp
    simp only [vector_insert_sorted, if_pos hc]

/-- On a list of heads that all carry the same classification
`GIT_WHN_WANT`, the modelled stable sort is the identity. -/
theorem git_vector_sort_id (l : List RemoteHead)
    (hl : ∀ x ∈ l, x.type = GIT_WHN_WANT) : git_vector_sort l = l := by
  induction l with
  | nil => rfl
  | cons a l ih =>
    have hl' : ∀ x ∈ l, x.type = GIT_WHN_WANT :=
      fun x hx => hl x (List.mem_cons_of_mem a hx)
    simp only [git_vector_sort]
    rw [ih hl']
    exact vector_insert_sorted_id a l (hl a (List.mem_cons_self a l)) hl'

/-- `filter_loop` only aborts with a strictly negative code. -/
theorem filter_loop_error_neg (repo : Repository) (sp : Refspec) (l : List RemoteHead)
    (e : Int) (evs : List Event)
    (h : filter_loop repo sp l = (Except.error e, evs)) : e < GIT_SUCCESS := by
  induction l generalizing evs with
  | nil => simp [filter_loop] at h
  | cons a l ih =>
    simp only [filter_loop] at h
    rcases hp : process_head repo sp a with e' | o
    · rw [hp] at h
      simp only [Prod.mk.injEq, Except.error.injEq] at h
      rw [← h.1]
      exact process_head_error_neg repo sp a e' hp
    · rw [hp] at h
      cases o with
      | none =>
        rcases hfl : filter_loop repo sp l with ⟨res, evts⟩
        rw [hfl] at h
        have h1 : res = Except.error e := congrArg Prod.fst h
        rw [h1] at hfl
        exact ih _ hfl
      | some h2 =>
        rcases hfl : filter_loop repo sp l with ⟨res, evts⟩
        rw [hfl] at h
        have h1 : res.map (fun l => h2 :: l) = Except.error e := congrArg Prod.fst h
        cases res with
        | error e0 =>
          simp only [Except.map, Except.error.injEq] at h1
          rw [h1] at hfl
          exact ih _ hfl
        | ok w => simp [Except.map] at h1

/-- Evaluation shape of `filter_wants` once the transport listing has
succeeded and a fetchspec is configured. -/
theorem filter_wants_eq (r : Remote) (advRefs : List RemoteHead) (sp : Refspec)
    (hls : r.transport.ls = (GIT_SUCCESS, advRefs))
    (hsp : r.fetchspec = some sp) :
    filter_wants r =
      match filter_loop r.repo sp advRefs with
      | (Except.error e, evs) => (e, r, Event.transportLs :: evs)
      | (Except.ok want, evs) =>
        (GIT_SUCCESS, { r with refs := git_vector_sort want },
          Event.transportLs :: evs) := by
  simp only [filter_wants, hls, hsp]
  rw [if_neg (lt_irrefl GIT_SUCCESS)]

/-- A successful `filter_wants` run installs exactly the advertised
heads selected by the per-head decision, in advertisement order, every
installed head is tagged `GIT_WHN_WANT`, and no advertised head
aborted. -/
theorem filter_wants_ok (r : Remote) (advRefs : List RemoteHead) (sp : Refspec)
    (hls : r.transport.ls = (GIT_SUCCESS, advRefs))
    (hsp : r.fetchspec = some sp)
    (hok : (filter_wants r).1 = GIT_SUCCESS) :
    (filter_wants r).2.1.refs = advRefs.filterMap (want_of_head r.repo sp) ∧
      ∀ x ∈ advRefs, ∃ o, process_head r.repo sp x = Except.ok o := by
  have he := filter_wants_eq r advRefs sp hls hsp
  rcases hfl : filter_loop r.repo sp advRefs with ⟨res, evs⟩
  rw [hfl] at he
  cases res with
  | error e =>
    have hok2 : e = GIT_SUCCESS := by
      rw [he] at hok
      simpa using hok
    have := filter_loop_error_neg r.repo sp advRefs e evs hfl
    rw [hok2] at this
    exact absurd this (lt_irrefl GIT_SUCCESS)
  | ok want =>
    obtain ⟨h1, h2⟩ := filter_loop_ok r.repo sp advRefs want evs hfl
    have hrefs : (filter_wants r).2.1.refs = git_vector_sort want := by rw [he]
    have hall : ∀ x ∈ want, x.type = GIT_WHN_WANT := by
      intro x hx
      rw [h1] at hx
      obtain ⟨h0, _, h0w⟩ := List.mem_filterMap.mp hx
      exact (process_head_some_fields r.repo sp h0 x
        (want_of_head_some r.repo sp h0 x h0w)).2.2
    rw [hrefs, git_vector_sort_id want hall, h1]
    exact ⟨rfl, h2⟩

/-- Evaluation shape of `git_fetch_negotiate` on a run that reaches the
have-draining phase: wants filtered and non-empty, local refs listed,
walker created and seeded.  The trace is the filter trace, the single
`sendWants`, the walker creation, the seeding pushes, one `sendHave`
per walker-yielded oid, the flush and done markers, and the walker
release; the returned code is the walker's terminating code with
`GIT_EREVWALKOVER` translated to `GIT_SUCCESS`. -/
theorem negotiate_run (r : Remote) (names : List String) (seeds oids : List Oid)
    (sevs : List Event) (term : Int)
    (hok : (filter_wants r).1 = GIT_SUCCESS)
    (hne : (filter_wants r).2.1.refs ≠ [])
    (hl : r.repo.listall = (GIT_SUCCESS, names))
    (hn : r.repo.revwalkNewCode = GIT_SUCCESS)
    (hs : seed_loop r.repo names = (Except.ok seeds, sevs))
    (hr : r.repo.revwalkRun seeds = (oids, term)) :
    git_fetch_negotiate r =
      (if term = GIT_EREVWALKOVER then GIT_SUCCESS else term,
        (filter_wants r).2.1,
        (filter_wants r).2.2 ++ [Event.sendWants (filter_wants r).2.1.refs] ++
          [Event.revwalkNew] ++ sevs ++ oids.map Event.sendHave ++
          [Event.sendFlush, Event.sendDone, Event.revwalkFree]) := by
  have hrepo := filter_wants_repo r
  simp only [git_fetch_negotiate, hok, hrepo, hl, hn, hs, hr,
    lt_irrefl GIT_SUCCESS, if_false]
  rw [if_neg (by rw [List.length_eq_zero]; exact hne)]
  rw [if_neg (by simp [GIT_SUCCESS, GIT_ERROR])]
  rw [if_neg (by simp [GIT_SUCCESS, GIT_ERROR])]

/-- `havesOf` distributes over trace concatenation. -/
theorem havesOf_append (a b : List Event) :
    havesOf (a ++ b) = havesOf a ++ havesOf b := by
  simp [havesOf, List.filterMap_append]

/-- A trace without `sendHave` events contributes no haves. -/
theorem havesOf_eq_nil (tr : List Event) (h : ∀ e ∈ tr, e.isSendHave = false) :
    havesOf tr = [] := by
  rw [havesOf, List.filterMap_eq_nil_iff]
  intro e he
  cases e <;> first
    | rfl
    | exact absurd (h _ he) (by simp [Event.isSendHave])

/-- The haves of a pure `sendHave` block are its oids, in order. -/
theorem havesOf_map_sendHave (oids : List Oid) :
    havesOf (oids.map Event.sendHave) = oids := by
  rw [havesOf, List.filterMap_map]
  have : (haveOid ∘ Event.sendHave) = some := by
    funext o; rfl
  rw [this, List.filterMap_some]

/-- Listing and matching events are not send events. -/
theorem filter_trace_no_send (r : Remote) :
    ∀ e ∈ (filter_wants r).2.2, e.isSendWants = false ∧ e.isSendHave = false := by
  intro e he
  rcases filter_wants_trace r e he with h | ⟨n, h⟩ <;>
    subst h <;> exact ⟨rfl, rfl⟩

/-- Seeding events are not send events. -/
theorem seed_trace_no_send (repo : Repository) (names : List String) :
    ∀ e ∈ (seed_loop repo names).2, e.isSendWants = false ∧ e.isSendHave = false := by
  intro e he
  obtain ⟨o, h⟩ := seed_loop_trace repo names e he
  subst h
  exact ⟨rfl, rfl⟩

/-- On any run that reaches the have-draining phase, the haves sent are
exactly the oids the walker yields for the seeds, in order. -/
theorem havesOf_negotiate (r : Remote) (names : List String) (seeds oids : List Oid)
    (sevs : List Event) (term : Int)
    (hok : (filter_wants r).1 = GIT_SUCCESS)
    (hne : (filter_wants r).2.1.refs ≠ [])
    (hl : r.repo.listall = (GIT_SUCCESS, names))
    (hn : r.repo.revwalkNewCode = GIT_SUCCESS)
    (hs : seed_loop r.repo names = (Except.ok seeds, sevs))
    (hr : r.repo.revwalkRun seeds = (oids, term)) :
    havesOf (git_fetch_negotiate r).2.2 = oids := by
  rw [negotiate_run r names seeds oids sevs term hok hne hl hn hs hr]
  have h1 : havesOf (filter_wants r).2.2 = [] :=
    havesOf_eq_nil _ (fun e he => (filter_trace_no_send r e he).2)
  have h2 : havesOf sevs = [] := by
    refine havesOf_eq_nil _ (fun e he => ?_)
    have := seed_trace_no_send r.repo names
    rw [hs] at this
    exact (this e he).2
  simp only [havesOf_append]
  rw [h1, h2, havesOf_map_sendHave]
  simp [havesOf, haveOid]

/- Further concrete environments. -/

/-- A remote with no configured fetch refspec but a working transport. -/
def remoteNoSpec : Remote :=
  { transport := transportOk, repo := repoOk, fetchspec := none, refs := [] }

/-- A transport whose advertisement is empty. -/
def transportEmpty : Transport :=
  { transportOk with ls := (GIT_SUCCESS, []) }

/-- A remote whose advertisement is empty: nothing to fetch. -/
def remoteEmptyAdv : Remote :=
  { transport := transportEmpty, repo := repoOk, fetchspec := some refspecId, refs := [] }

/- Claim theorems. -/

/-- C10: whenever `filter_wants` fails, the remote's stored reference
list is left unchanged: the partially built want vector is discarded
and never installed; the advertisement is replaced only on success. -/
theorem C10_filter_wants_failure_preserves_refs (r : Remote)
    (h : (filter_wants r).1 < GIT_SUCCESS) :
    (filter_wants r).2.1.refs = r.refs := by
  by_cases h1 : r.transport.ls.1 < GIT_SUCCESS
  · simp [filter_wants, h1]
  · rcases hsp : r.fetchspec with _ | sp
    · simp [filter_wants, h1, hsp]
    · rcases hfl : filter_loop r.repo sp r.transport.ls.2 with ⟨res, evs⟩
      cases res with
      | error e => simp [filter_wants, h1, hsp, hfl]
      | ok want =>
        exfalso
        simp [filter_wants, h1, hsp, hfl] at h

/-- C10 witness: a concrete failing run (no fetchspec configured)
leaves the stored reference list untouched. -/
theorem C10_witness :
    (filter_wants remoteNoSpec).1 < GIT_SUCCESS ∧
      (filter_wants remoteNoSpec).2.1.refs = remoteNoSpec.refs :=
  ⟨by decide, C10_filter_wants_failure_preserves_refs remoteNoSpec (by decide)⟩

/-- C4 counterexample: a remote with no active fetch refspec on which
`filter_wants` nevertheless performs the transport listing of remote
refs before failing — the claim says no transport listing occurs. -/
theorem C4_counterexample :
    remoteNoSpec.fetchspec = none ∧
      (filter_wants remoteNoSpec).1 = GIT_ERROR ∧
      Event.transportLs ∈ (filter_wants remoteNoSpec).2.2 :=
  ⟨rfl, by decide, by decide⟩

/-- C4 (amended): with no active fetch refspec, `filter_wants` first
lists the remote refs over the transport; once the listing succeeds it
fails with the configuration error `GIT_ERROR` before any per-head
processing. -/
theorem C4_no_fetchspec_config_error (r : Remote) (advRefs : List RemoteHead)
    (hls : r.transport.ls = (GIT_SUCCESS, advRefs))
    (hsp : r.fetchspec = none) :
    (filter_wants r).1 = GIT_ERROR ∧
      ∀ n, Event.matchHead n ∉ (filter_wants r).2.2 := by
  simp [filter_wants, hls, hsp]

/-- C4 witness: the amended behaviour at the concrete no-fetchspec
remote. -/
theorem C4_witness :
    (filter_wants remoteNoSpec).1 = GIT_ERROR ∧
      ∀ n, Event.matchHead n ∉ (filter_wants remoteNoSpec).2.2 :=
  C4_no_fetchspec_config_error remoteNoSpec [headM] rfl rfl

/-- C5: when the computed want list is empty, `negotiate` returns
success immediately with exactly the filtering trace — which contains
only the initial advertisement listing and per-head matching, so no
wants, haves, flush or done markers are sent and no walker is
created. -/
theorem C5_empty_wants_no_io (r : Remote)
    (hok : (filter_wants r).1 = GIT_SUCCESS)
    (hempty : (filter_wants r).2.1.refs = []) :
    git_fetch_negotiate r = (GIT_SUCCESS, (filter_wants r).2.1, (filter_wants r).2.2) ∧
      ∀ e ∈ (filter_wants r).2.2,
        e = Event.transportLs ∨ ∃ n, e = Event.matchHead n := by
  refine ⟨?_, filter_wants_trace r⟩
  simp only [git_fetch_negotiate, hok, hempty]
  simp

/-- C5 witness: a remote whose advertisement is empty negotiates to
immediate success with no transport calls beyond the listing. -/
theorem C5_witness :
    git_fetch_negotiate remoteEmptyAdv =
        (GIT_SUCCESS, (filter_wants remoteEmptyAdv).2.1,
          (filter_wants remoteEmptyAdv).2.2) ∧
      ∀ e ∈ (filter_wants remoteEmptyAdv).2.2,
        e = Event.transportLs ∨ ∃ n, e = Event.matchHead n :=
  C5_empty_wants_no_io remoteEmptyAdv (by decide) (by decide)

/-- C1: on a successful `filter_wants` run, an advertised head has a
representative (same name and remote oid) in the installed want list
iff its name matches the active fetch refspec's source pattern and no
local ref under the transformed name is already at the head's remote
oid — a missing local counterpart means the head is wanted, an
equal-oid local ref means it is skipped. -/
theorem C1_want_list_membership (r : Remote) (advRefs : List RemoteHead)
    (sp : Refspec) (head : RemoteHead)
    (hls : r.transport.ls = (GIT_SUCCESS, advRefs))
    (hsp : r.fetchspec = some sp)
    (hok : (filter_wants r).1 = GIT_SUCCESS)
    (hmem : head ∈ advRefs) :
    (∃ h2, h2 ∈ (filter_wants r).2.1.refs ∧ h2.name = head.name ∧ h2.oid = head.oid)
      ↔ (GIT_SUCCESS ≤ sp.srcMatch head.name ∧ ¬ localUpToDate r.repo sp head) := by
  obtain ⟨hrefs, hall⟩ := filter_wants_ok r advRefs sp hls hsp hok
  constructor
  · rintro ⟨h2, hmem2, hname, hoid⟩
    rw [hrefs] at hmem2
    obtain ⟨h0, h0mem, h0w⟩ := List.mem_filterMap.mp hmem2
    have hp0 := want_of_head_some r.repo sp h0 h2 h0w
    obtain ⟨f1, f2, _⟩ := process_head_some_fields r.repo sp h0 h2 hp0
    have hcond := (process_head_cond r.repo sp h0 (some h2) hp0).mp (by simp)
    have hn : h0.name = head.name := by rw [← f1, hname]
    have ho : h0.oid = head.oid := by rw [← f2, hoid]
    refine ⟨by rw [← hn]; exact hcond.1, ?_⟩
    rw [← localUpToDate_congr r.repo sp h0 head hn ho]
    exact hcond.2
  · rintro ⟨hmatch, hnot⟩
    obtain ⟨o, hpo⟩ := hall head hmem
    have hsome : o.isSome = true :=
      (process_head_cond r.repo sp head o hpo).mpr ⟨hmatch, hnot⟩
    rcases o with _ | h2
    · simp at hsome
    · obtain ⟨f1, f2, _⟩ := process_head_some_fields r.repo sp head h2 hpo
      refine ⟨h2, ?_, f1, f2⟩
      rw [hrefs]
      exact List.mem_filterMap.mpr
        ⟨head, hmem, want_of_head_eq r.repo sp head (some h2) hpo⟩

/-- C1 witness: for the concrete healthy remote, the advertised head
`m` is wanted — it matches the refspec and has no local counterpart. -/
theorem C1_witness :
    (∃ h2, h2 ∈ (filter_wants remoteOk).2.1.refs ∧
        h2.name = headM.name ∧ h2.oid = headM.oid)
      ↔ (GIT_SUCCESS ≤ refspecId.srcMatch headM.name ∧
          ¬ localUpToDate remoteOk.repo refspecId headM) :=
  C1_want_list_membership remoteOk [headM] refspecId headM rfl rfl (by decide)
    (by decide)

/-- C7: on a successful `filter_wants` run the installed want list is
sorted by classification descending under the source comparator
`whn_cmp`, and it equals the per-head filtering of the advertisement in
advertisement order — so entries of equal classification keep their
relative advertisement order (spec-modelled stable `git_vector_sort`). -/
theorem C7_want_list_sorted_stable (r : Remote) (advRefs : List RemoteHead)
    (sp : Refspec)
    (hls : r.transport.ls = (GIT_SUCCESS, advRefs))
    (hsp : r.fetchspec = some sp)
    (hok : (filter_wants r).1 = GIT_SUCCESS) :
    List.Pairwise (fun a b => whn_cmp a b ≤ 0) (filter_wants r).2.1.refs ∧
      (filter_wants r).2.1.refs = advRefs.filterMap (want_of_head r.repo sp) := by
  obtain ⟨hrefs, _⟩ := filter_wants_ok r advRefs sp hls hsp hok
  refine ⟨?_, hrefs⟩
  have hall : ∀ x ∈ (filter_wants r).2.1.refs, x.type = GIT_WHN_WANT := by
    intro x hx
    rw [hrefs] at hx
    obtain ⟨h0, _, h0w⟩ := List.mem_filterMap.mp hx
    exact (process_head_some_fields r.repo sp h0 x
      (want_of_head_some r.repo sp h0 x h0w)).2.2
  refine List.pairwise_of_forall_mem_list ?_
  intro a ha b hb
  simp [whn_cmp, hall a ha, hall b hb]

/-- C7 witness: the concrete healthy remote's want list is sorted and
in advertisement order. -/
theorem C7_witness :
    List.Pairwise (fun a b => whn_cmp a b ≤ 0) (filter_wants remoteOk).2.1.refs ∧
      (filter_wants remoteOk).2.1.refs =
        [headM].filterMap (want_of_head remoteOk.repo refspecId) :=
  C7_want_list_sorted_stable remoteOk [headM] refspecId rfl rfl (by decide)

/-- C8: when the revision walker signals `GIT_EREVWALKOVER` while
`negotiate` is draining haves, the sentinel is translated into success:
exhaustion after zero or more haves yields a `GIT_SUCCESS` return,
never an error. -/
theorem C8_exhaustion_is_success (r : Remote) (names : List String)
    (seeds oids : List Oid) (sevs : List Event)
    (hok : (filter_wants r).1 = GIT_SUCCESS)
    (hne : (filter_wants r).2.1.refs ≠ [])
    (hl : r.repo.listall = (GIT_SUCCESS, names))
    (hn : r.repo.revwalkNewCode = GIT_SUCCESS)
    (hs : seed_loop r.repo names = (Except.ok seeds, sevs))
    (hr : r.repo.revwalkRun seeds = (oids, GIT_EREVWALKOVER)) :
    (git_fetch_negotiate r).1 = GIT_SUCCESS := by
  rw [negotiate_run r names seeds oids sevs GIT_EREVWALKOVER hok hne hl hn hs hr]
  simp

/-- C8 witness: the concrete healthy remote's walker exhausts after one
have and `negotiate` returns success. -/
theorem C8_witness : (git_fetch_negotiate remoteOk).1 = GIT_SUCCESS :=
  C8_exhaustion_is_success remoteOk ["b"] [oidA] [oidA] [Event.revwalkPush oidA]
    (by decide) (by decide) rfl rfl rfl rfl

/-- C9: in a successful negotiation with a non-empty want list, the
trace decomposes as events before the single whole-list `sendWants`,
events between it and the have block, the haves in exactly the walker's
traversal order, and trailing events — with no other want or have sends
anywhere; moreover the have sequence is a function of the repository
alone: every remote sharing the same repository that also negotiates a
non-empty want list sends the identical have sequence. -/
theorem C9_ordering_and_determinism (r : Remote) (names : List String)
    (seeds oids : List Oid) (sevs : List Event)
    (hok : (filter_wants r).1 = GIT_SUCCESS)
    (hne : (filter_wants r).2.1.refs ≠ [])
    (hl : r.repo.listall = (GIT_SUCCESS, names))
    (hn : r.repo.revwalkNewCode = GIT_SUCCESS)
    (hs : seed_loop r.repo names = (Except.ok seeds, sevs))
    (hr : r.repo.revwalkRun seeds = (oids, GIT_EREVWALKOVER)) :
    (∃ pre mid post,
      (git_fetch_negotiate r).2.2 =
        pre ++ [Event.sendWants (filter_wants r).2.1.refs] ++ mid ++
          oids.map Event.sendHave ++ post ∧
      (∀ e ∈ pre, e.isSendWants = false ∧ e.isSendHave = false) ∧
      (∀ e ∈ mid, e.isSendWants = false ∧ e.isSendHave = false) ∧
      (∀ e ∈ post, e.isSendWants = false ∧ e.isSendHave = false)) ∧
    havesOf (git_fetch_negotiate r).2.2 = oids ∧
    (∀ r2 : Remote, r2.repo = r.repo →
      (filter_wants r2).1 = GIT_SUCCESS → (filter_wants r2).2.1.refs ≠ [] →
      havesOf (git_fetch_negotiate r2).2.2 = oids) := by
  refine ⟨?_, ?_, ?_⟩
  · refine ⟨(filter_wants r).2.2, Event.revwalkNew :: sevs,
      [Event.sendFlush, Event.sendDone, Event.revwalkFree], ?_, ?_, ?_, ?_⟩
    · rw [negotiate_run r names seeds oids sevs GIT_EREVWALKOVER hok hne hl hn hs hr]
      simp [List.append_assoc]
    · exact filter_trace_no_send r
    · intro e he
      rcases List.mem_cons.mp he with h | h
      · subst h; exact ⟨rfl, rfl⟩
      · have := seed_trace_no_send r.repo names
        rw [hs] at this
        exact this e h
    · intro e he
      rcases List.mem_cons.mp he with h | h
      · subst h; exact ⟨rfl, rfl⟩
      · rcases List.mem_cons.mp h with h | h
        · subst h; exact ⟨rfl, rfl⟩
        · rcases List.mem_cons.mp h with h | h
          · subst h; exact ⟨rfl, rfl⟩
          · simp at h
  · exact havesOf_negotiate r names seeds oids sevs GIT_EREVWALKOVER hok hne hl hn hs hr
  · intro r2 hrepo hok2 hne2
    refine havesOf_negotiate r2 names seeds oids sevs GIT_EREVWALKOVER hok2 hne2 ?_ ?_ ?_ ?_
    · rw [hrepo]; exact hl
    · rw [hrepo]; exact hn
    · rw [hrepo]; exact hs
    · rw [hrepo]; exact hr

/-- C9 witness: the decomposition and determinism at the concrete
healthy remote. -/
theorem C9_witness :
    (∃ pre mid post,
      (git_fetch_negotiate remoteOk).2.2 =
        pre ++ [Event.sendWants (filter_wants remoteOk).2.1.refs] ++ mid ++
          [oidA].map Event.sendHave ++ post ∧
      (∀ e ∈ pre, e.isSendWants = false ∧ e.isSendHave = false) ∧
      (∀ e ∈ mid, e.isSendWants = false ∧ e.isSendHave = false) ∧
      (∀ e ∈ post, e.isSendWants = false ∧ e.isSendHave = false)) ∧
    havesOf (git_fetch_negotiate remoteOk).2.2 = [oidA] ∧
    (∀ r2 : Remote, r2.repo = remoteOk.repo →
      (filter_wants r2).1 = GIT_SUCCESS → (filter_wants r2).2.1.refs ≠ [] →
      havesOf (git_fetch_negotiate r2).2.2 = [oidA]) :=
  C9_ordering_and_determinism remoteOk ["b"] [oidA] [oidA] [Event.revwalkPush oidA]
    (by decide) (by decide) rfl rfl rfl rfl

/-- A repository whose lookup of the listed local ref `b` fails with
the plain `GIT_ERROR` code, leaving the out pointer unset. -/
def repoLookupFails : Repository :=
  { repoOk with lookup := fun n =>
      if n = "b" then (GIT_ERROR, none) else (GIT_ENOTFOUND, none) }

/-- A remote whose seeding-phase ref lookup fails with `GIT_ERROR`. -/
def remoteLookupFails : Remote :=
  { transport := transportOk, repo := repoLookupFails,
    fetchspec := some refspecId, refs := [] }

/-- C2: the walker-seeding phase is specified to abort on any local
ref lookup failure, but the code tests `error < GIT_ERROR` instead of
`error < GIT_SUCCESS`: a lookup that fails with the plain `GIT_ERROR`
code is not caught — `negotiate` keeps seeding (pushing the oid of the
unset reference), walks, completes the transport sequence and returns
success. -/
theorem C2_seed_lookup_failure_not_fatal :
    (remoteLookupFails.repo.lookup "b").1 = GIT_ERROR ∧
      (git_fetch_negotiate remoteLookupFails).1 = GIT_SUCCESS ∧
      Event.revwalkPush { id := 0 } ∈ (git_fetch_negotiate remoteLookupFails).2.2 ∧
      Event.sendHave { id := 0 } ∈ (git_fetch_negotiate remoteLookupFails).2.2 ∧
      Event.sendDone ∈ (git_fetch_negotiate remoteLookupFails).2.2 := by decide

/-- A transport whose send operations all report `GIT_ERROR`. -/
def transportSendFails : Transport :=
  { transportOk with
    sendWantsCode := GIT_ERROR
    sendHaveCode := fun _ => GIT_ERROR
    sendFlushCode := GIT_ERROR
    sendDoneCode := GIT_ERROR }

/-- A remote whose transport send operations all fail. -/
def remoteSendFails : Remote :=
  { transport := transportSendFails, repo := repoOk,
    fetchspec := some refspecId, refs := [] }

/-- C3: transport failures during the want/have exchange are specified
to be fatal, but `git_fetch_negotiate` discards the return values of
`send_wants`, `send_have`, `send_flush` and `send_done`: with every
send operation reporting `GIT_ERROR`, the full sequence is still
emitted and `negotiate` returns success. -/
theorem C3_transport_failure_ignored :
    remoteSendFails.transport.sendWantsCode = GIT_ERROR ∧
      remoteSendFails.transport.sendHaveCode oidA = GIT_ERROR ∧
      remoteSendFails.transport.sendFlushCode = GIT_ERROR ∧
      remoteSendFails.transport.sendDoneCode = GIT_ERROR ∧
      ((git_fetch_negotiate remoteSendFails).2.2.any Event.isSendWants) = true ∧
      Event.sendHave oidA ∈ (git_fetch_negotiate remoteSendFails).2.2 ∧
      Event.sendFlush ∈ (git_fetch_negotiate remoteSendFails).2.2 ∧
      Event.sendDone ∈ (git_fetch_negotiate remoteSendFails).2.2 ∧
      (git_fetch_negotiate remoteSendFails).1 = GIT_SUCCESS := by decide

/-- A repository whose walker creation fails with `GIT_ENOMEM`. -/
def repoNewFails : Repository :=
  { repoOk with revwalkNewCode := GIT_ENOMEM }

/-- A remote whose revision-walker creation fails. -/
def remoteNewFails : Remote :=
  { transport := transportOk, repo := repoNewFails,
    fetchspec := some refspecId, refs := [] }

/-- C6: when `git_revwalk_new` fails (here with `GIT_ENOMEM`, so no
walker was ever created), the error path jumps to the cleanup label and
still calls `git_revwalk_free` — the trace contains exactly one
`revwalkFree` even though walker creation did not succeed, releasing a
walker that was never created. -/
theorem C6_free_without_successful_create :
    remoteNewFails.repo.revwalkNewCode = GIT_ENOMEM ∧
      remoteNewFails.repo.revwalkNewCode ≠ GIT_SUCCESS ∧
      (git_fetch_negotiate remoteNewFails).1 = GIT_ENOMEM ∧
      Event.revwalkNew ∈ (git_fetch_negotiate remoteNewFails).2.2 ∧
      (git_fetch_negotiate remoteNewFails).2.2.count Event.revwalkFree = 1 := by decide
